import Mathlib

/-!
Verification development for the PartyBot submission workflow.

The Python module app.py keeps an in-memory store made of four shared
structures: a map from random tokens to Submission objects, a map from a
user id to the currently active token of that user, a set of canonical
candidate names already submitted, and a nested map of completed
submissions keyed by submitter, then position, then candidate name.

The shallow embedding below models Python dictionaries as association
lists with in-place overwrite (matching dict insertion-order semantics),
Python sets as duplicate-free lists, and Python object identity for
Submission objects through the token that registers each object: every
Submission is created exactly once, in partybot_submit, and immediately
stored under a fresh token, so the token serves as the object reference.
The nested completed-submissions map therefore stores tokens, and field
mutation is modelled by overwriting the token entry in the token map.
Outbound Slack calls, deletions, log lines and the YAML file rewrite are
modelled as an effect list returned by each handler.  Uncaught Python
exceptions are modelled with Except; in the source every raising
statement of cancel_submission occurs before any store mutation, so a
raising handler leaves the store unchanged.
-/

namespace PartyBot

/-- Association list lookup, modelling Python dict subscript / get. -/
def lookupA {α β : Type} [DecidableEq α] : List (α × β) → α → Option β
  | [], _ => none
  | (k, v) :: t, a => if k = a then some v else lookupA t a

/-- Association list insert with in-place overwrite, modelling Python
dict assignment, which keeps the original position of an existing key. -/
def insertA {α β : Type} [DecidableEq α] : List (α × β) → α → β → List (α × β)
  | [], a, b => [(a, b)]
  | (k, v) :: t, a, b => if k = a then (a, b) :: t else (k, v) :: insertA t a b

/-- Python set.add on a duplicate-free list. -/
def setAdd (x : String) (l : List String) : List String :=
  if x ∈ l then l else l ++ [x]

/-- Python set.remove minus the raising case, which callers handle. -/
def setRemove (x : String) (l : List String) : List String :=
  l.filter (fun y => y ≠ x)

/-- app.py line 30: MAX_COMMAND_LENGTH = 2 ** 8. -/
def MAX_COMMAND_LENGTH : Nat := 2 ^ 8

/-- app.py line 31: CANDIDATE_LIMIT = 9. -/
def CANDIDATE_LIMIT : Nat := 9

/-- app.py lines 60-62: remove every non-alphabetic character from the
name and lowercase the remainder. -/
def canonicalize_name (name : String) : String :=
  String.mk ((name.toList.filter Char.isAlpha).map Char.toLower)

/-- app.py lines 44-57: the Submission dataclass.  Every field except
done starts out as None. -/
structure Submission where
  referer : Option String
  candidate : Option String
  url : Option String
  position : Option String
  ts : Option String
  extra_info : Option String
  cv_filename : Option String
  done : Bool
deriving DecidableEq

/-- The Submission constructor: all fields None, done false. -/
def Submission.init : Submission :=
  ⟨none, none, none, none, none, none, none, false⟩

/-- The nested completed-submissions map: submitter, then position, then
candidate name, each an Option String because the Submission fields used
as keys are Optional in the source; values are tokens standing for the
Submission objects. -/
abbrev CompletedMap :=
  List (Option String × List (Option String × List (Option String × Nat)))

instance : DecidableEq (Option String × List (Option String × Nat)) :=
  inferInstance

instance : DecidableEq (Option String × List (Option String × List (Option String × Nat))) :=
  inferInstance

/-- The module-level store of app.py lines 35-41.  nextToken models the
stream of fresh uuid4 tokens. -/
structure StoreState where
  known_candidates : List (String × String)
  submitted_candidates : List String
  done_submissions_by_user : CompletedMap
  submissions_by_token : List (Nat × Submission)
  open_positions : List String
  current_token_by_user_id : List (String × Nat)
  nextToken : Nat
deriving DecidableEq

/-- The distinct outbound messages the handlers produce. -/
inductive Msg where
  | maxLength
  | malformedUrl
  | emptyName
  | knownPool
  | duplicate
  | picker
  | quota
  | internalError
  | positionSelected
  | submissionDone
  | canceled
  | infoSaved
  | report (entries : List (Option String × List (Option String)))
deriving DecidableEq

/-- Observable side effects of a handler, in program order. -/
inductive Effect where
  | respond (m : Msg)
  | postMessage (channel : String) (m : Msg)
  | chatDelete (channel : String) (ts : Option String)
  | save (entries : List Submission)
  | logInfo
  | logWarn
  | logError
deriving DecidableEq

/-- True exactly on the file-rewrite effect. -/
def Effect.isSave : Effect → Bool
  | .save _ => true
  | _ => false

/-- Uncaught Python exceptions of the modelled handlers. -/
inductive PyError where
  | attributeError
  | keyError
  | typeError
  | osError
deriving DecidableEq

/-- Characters CPython urlparse accepts inside a scheme. -/
def schemeChar (c : Char) : Bool :=
  c.isAlphanum || c = '+' || c = '-' || c = '.'

/-- Model of urlparse(url).scheme being non-empty: a colon occurs at a
positive index, everything before it is made of scheme characters, and
the first character is a letter. -/
def hasScheme (url : String) : Bool :=
  let cs := url.toList
  match cs.findIdx? (· = ':') with
  | none => false
  | some i =>
    decide (0 < i) && (cs.take i).all schemeChar &&
      (match cs with
       | [] => false
       | c :: _ => c.isAlpha)

/-- Python str.split on a single separator character: keeps empty
pieces, and splitting the empty string yields one empty piece. -/
def splitOnChar (c : Char) : List Char → List (List Char)
  | [] => [[]]
  | x :: t =>
    match splitOnChar c t with
    | [] => if x = c then [[], [x]] else [[x]]
    | h :: r => if x = c then [] :: h :: r else (x :: h) :: r

/-- Python " ".join. -/
def joinWithSpace : List String → String
  | [] => ""
  | [s] => s
  | s :: t => s ++ " " ++ joinWithSpace t

/-- app.py lines 122-126: split the command text on spaces, take the
first piece as the URL and rejoin the rest as the candidate name, strip
the angle brackets of Slack link markup from the URL, and cut the URL at
the first pipe when one is present. -/
def parseCommand (text : String) : String × String :=
  let parts := (splitOnChar ' ' text.toList).map String.mk
  let url0 := parts.headD ""
  let name := joinWithSpace parts.tail
  let url1 := String.mk (url0.toList.filter (fun c => c ≠ '<' && c ≠ '>'))
  let url2 :=
    if url1.toList.contains '|' then String.mk (url1.toList.takeWhile (· ≠ '|'))
    else url1
  (url2, name)

/-- app.py lines 128-131: when the URL has no recognizable scheme the
handler logs a warning and responds with a warning message but carries
on. -/
def urlWarnEffects (url : String) : List Effect :=
  if hasScheme url then [] else [.logWarn, .respond .malformedUrl]

/-- Reading the two inner levels of the completed-submissions map with
empty defaults, modelling defaultdict access that creates only empty
entries, which are identified with absent entries here. -/
def completedGet (d : CompletedMap) (u p : Option String) :
    List (Option String × Nat) :=
  (lookupA ((lookupA d u).getD []) p).getD []

/-- Insertion into the three-level completed-submissions map. -/
def completedInsert (d : CompletedMap) (u p c : Option String) (tok : Nat) :
    CompletedMap :=
  insertA d u (insertA ((lookupA d u).getD []) p
    (insertA ((lookupA ((lookupA d u).getD []) p).getD []) c tok))

/-- All tokens referenced anywhere in the completed-submissions map. -/
def completedTokens (d : CompletedMap) : List Nat :=
  d.flatMap (fun um => um.2.flatMap (fun pm => pm.2.map (·.2)))

/-- app.py lines 233-242: flatten every completed Submission into a list
for the YAML rewrite; entries are resolved through the token map because
the Python structure holds object references. -/
def flattenSubmissions (s : StoreState) : List Submission :=
  s.done_submissions_by_user.flatMap
    (fun um => um.2.flatMap
      (fun pm => pm.2.filterMap (fun cm => lookupA s.submissions_by_token cm.2)))

/-- app.py lines 212-230: mark the Submission done, register it in the
completed map under referer, position and candidate, notify the user,
delete the stale interactive message, and rewrite the file.  The caller
passes the Submission it looked up under the token, so overwriting the
token entry models the in-place mutation of the shared object. -/
def finish_submission (s : StoreState) (user_id : String) (token : Nat)
    (sub : Submission) : StoreState × List Effect :=
  let subDone := { sub with done := true }
  let s' :=
    { s with
      submissions_by_token := insertA s.submissions_by_token token subDone
      done_submissions_by_user :=
        completedInsert s.done_submissions_by_user subDone.referer
          subDone.position subDone.candidate token }
  (s', [.postMessage user_id .submissionDone, .chatDelete user_id subDone.ts,
        .save (flattenSubmissions s')])

/-- app.py lines 151-161: the Submission created on a successful
nomination, with referer, candidate, url and the interactive-message
timestamp populated. -/
def newSubmission (user_name candidate_name candidate_url msg_ts : String) :
    Submission :=
  { Submission.init with
    referer := some user_name
    candidate := some candidate_name
    url := some candidate_url
    ts := some msg_ts }

/-- app.py lines 109-209: the partybot-submit command handler.  The
interactive-message timestamp returned by Slack is passed in as msg_ts;
the source stores it on the Submission after registering it, and the
handler is modelled atomically. -/
def partybot_submit (s : StoreState) (user_name user_id text msg_ts : String) :
    StoreState × List Effect :=
  if text.length > MAX_COMMAND_LENGTH then
    (s, [.respond .maxLength])
  else
    let candidate_url := (parseCommand text).1
    let candidate_name := (parseCommand text).2
    let warn := urlWarnEffects candidate_url
    if candidate_name = "" then
      (s, warn ++ [.respond .emptyName])
    else
      let canonical_name := canonicalize_name candidate_name
      if canonical_name ∈ s.known_candidates.map Prod.snd then
        (s, warn ++ [.respond .knownPool])
      else if canonical_name ∈ s.submitted_candidates then
        (s, warn ++ [.respond .duplicate])
      else
        let token := s.nextToken
        let sub := newSubmission user_name candidate_name candidate_url msg_ts
        ({ s with
           submitted_candidates := setAdd canonical_name s.submitted_candidates
           submissions_by_token := insertA s.submissions_by_token token sub
           current_token_by_user_id :=
             insertA s.current_token_by_user_id user_id token
           nextToken := s.nextToken + 1 },
         warn ++ [.logInfo, .postMessage user_id .picker])

/-- app.py lines 245-285: the position-pick interaction handler.  The
quota guard runs first; an unknown token is reported as an internal
error; otherwise the position and a fresh message timestamp are written
to the Submission and completion is invoked. -/
def pick_position (s : StoreState) (token : Nat)
    (user_id user_name position message_ts : String) : StoreState × List Effect :=
  if CANDIDATE_LIMIT ≤ (completedGet s.done_submissions_by_user
      (some user_name) (some position)).length then
    (s, [.postMessage user_id .quota])
  else
    match lookupA s.submissions_by_token token with
    | none => (s, [.logError, .postMessage user_id .internalError])
    | some sub =>
      let sub' := { sub with position := some position, ts := some message_ts }
      let r := finish_submission s user_id token sub'
      (r.1, [.postMessage user_id .positionSelected, .logInfo] ++ r.2)

/-- app.py lines 288-317: the cancel interaction handler.  A token
missing from the token map makes the None dereference on line 299 raise;
a canonical name missing from the submitted set makes set.remove on line
300 raise; both raises happen before any store mutation.  On success the
canonical name is removed from the submitted set and nothing else in the
store changes. -/
def cancel_submission (s : StoreState) (token : Nat) (user_id : String) :
    Except PyError (StoreState × List Effect) :=
  match lookupA s.submissions_by_token token with
  | none => .error .attributeError
  | some sub =>
    match sub.candidate with
    | none => .error .typeError
    | some cand =>
      let canonical := canonicalize_name cand
      if canonical ∈ s.submitted_candidates then
        .ok ({ s with
               submitted_candidates :=
                 setRemove canonical s.submitted_candidates },
             [.postMessage user_id .canceled, .chatDelete user_id sub.ts,
              .logInfo])
      else
        .error .keyError

/-- The cv_filename update of app.py lines 338-346: a file attachment
stores a downloaded-file reference, otherwise the field is left alone. -/
def updatedCv (file_name : Option String) (old : Option String) : Option String :=
  match file_name with
  | some f => some f
  | none => old

/-- app.py lines 338-348: the field updates a generic message applies to
the active Submission: the attachment reference when a file is shared,
and the message text as extra_info. -/
def updatedSubmission (sub : Submission) (text : String)
    (file_name : Option String) : Submission :=
  { sub with
    cv_filename := updatedCv file_name sub.cv_filename
    extra_info := some text }

/-- app.py lines 320-364: the generic message handler.  A missing user
id is the bot speaking to itself; a user without an active token, or
whose token resolves to nothing, is logged and ignored; an already done
Submission is ignored silently; otherwise the message text is stored as
extra_info, an attachment reference is stored, the user is acknowledged,
and completion runs when the position field is truthy. -/
def extra_info_message (s : StoreState) (user_id : Option String)
    (text : String) (file_name : Option String) : StoreState × List Effect :=
  match user_id with
  | none => (s, [])
  | some uid =>
    match lookupA s.current_token_by_user_id uid with
    | none => (s, [.logInfo])
    | some token =>
      match lookupA s.submissions_by_token token with
      | none => (s, [.logInfo])
      | some sub =>
        if sub.done then (s, [])
        else
          let sub' := updatedSubmission sub text file_name
          let s' := { s with
                      submissions_by_token :=
                        insertA s.submissions_by_token token sub' }
          match sub'.position with
          | none => (s', [.postMessage uid .infoSaved])
          | some p =>
            if p = "" then (s', [.postMessage uid .infoSaved])
            else
              let r := finish_submission s' uid token sub'
              (r.1, [.postMessage uid .infoSaved] ++ r.2)

/-- app.py lines 88-92: project the completed submissions of one user
down to candidate names grouped by position; the candidate field is read
through the object reference, here the token map. -/
def reportFor (s : StoreState) (user_name : String) :
    List (Option String × List (Option String)) :=
  ((lookupA s.done_submissions_by_user (some user_name)).getD []).map
    (fun pm => (pm.1, pm.2.map
      (fun cm => (lookupA s.submissions_by_token cm.2).bind Submission.candidate)))

/-- app.py lines 81-106: the partybot-report command handler posts the
projection and touches nothing. -/
def partybot_report (s : StoreState) (user_name user_id : String) :
    StoreState × List Effect :=
  (s, [.postMessage user_id (.report (reportFor s user_name))])

/-- Outcome of reading one YAML configuration source: the open call can
fail, yaml.safe_load can raise a YAMLError, or a list is produced. -/
inductive ReadResult where
  | openFail
  | yamlError
  | parsed (xs : List String)
deriving DecidableEq

/-- app.py lines 65-70: the known-candidates loader.  Only YAMLError is
caught, inside the with block; a failing open propagates and aborts
startup.  On a parse error the registry stays the empty mapping. -/
def loadKnownCandidates : ReadResult →
    Except PyError (List (String × String) × List Effect)
  | .openFail => .error .osError
  | .yamlError => .ok ([], [.logWarn])
  | .parsed xs => .ok (xs.map (fun c => (c, canonicalize_name c)), [])

/-- app.py lines 72-77: the open-positions loader, same structure. -/
def loadOpenPositions : ReadResult →
    Except PyError (List String × List Effect)
  | .openFail => .error .osError
  | .yamlError => .ok ([], [.logWarn])
  | .parsed xs => .ok (xs, [])

/-- The store at startup, for given registry contents. -/
def initState (known : List (String × String)) (positions : List String) :
    StoreState :=
  { known_candidates := known
    submitted_candidates := []
    done_submissions_by_user := []
    submissions_by_token := []
    open_positions := positions
    current_token_by_user_id := []
    nextToken := 0 }

/-- The inbound events the dispatcher can deliver, with the payloads an
event carries in the source. -/
inductive Event where
  | submitCmd (user_name user_id text msg_ts : String)
  | pickPos (token : Nat) (user_id user_name position message_ts : String)
  | cancelAct (token : Nat) (user_id : String)
  | message (user_id : Option String) (text : String) (file_name : Option String)

/-- One dispatched event.  A raising cancel leaves the store unchanged
because both raising statements precede every mutation. -/
def step (s : StoreState) (e : Event) : StoreState :=
  match e with
  | .submitCmd un ui t ts => (partybot_submit s un ui t ts).1
  | .pickPos tok ui un pos mts => (pick_position s tok ui un pos mts).1
  | .cancelAct tok ui =>
    match cancel_submission s tok ui with
    | .ok r => r.1
    | .error _ => s
  | .message ui t f => (extra_info_message s ui t f).1

/-- Running a sequence of events from a state. -/
def run (s : StoreState) (es : List Event) : StoreState :=
  es.foldl step s

/-- The only operation that removes a canonical name from the submitted
set is the set removal in cancel_submission, and the name it removes is
the canonicalization of the candidate of the Submission its token
resolves to.  This predicate marks the events able to free the name c
when dispatched in state s: a cancel interaction whose token resolves to
a Submission carrying that canonical name. -/
def freesName (s : StoreState) (c : String) : Event → Bool
  | .cancelAct tok _ =>
    match lookupA s.submissions_by_token tok with
    | some sub =>
      match sub.candidate with
      | some cand => decide (canonicalize_name cand = c)
      | none => false
    | none => false
  | _ => false

/-- No event of the list can free the canonical name c when the list is
dispatched from state s. -/
def nameSafe (c : String) : StoreState → List Event → Bool
  | _, [] => true
  | s, e :: es => !freesName s c e && nameSafe c (step s e) es

/-! ### Concrete states and traces used to evaluate the handlers -/

/-- The store after one accepted nomination of the candidate x. -/
def c1AfterSubmit : StoreState :=
  (partybot_submit (initState [] []) "u" "i" "http://a x" "t1").1

/-- The effects of that accepted nomination. -/
def c1AfterEffects : List Effect :=
  (partybot_submit (initState [] []) "u" "i" "http://a x" "t1").2

/-- An oversized nomination command whose candidate name is still x. -/
def c1LongText : String :=
  String.mk (List.replicate 255 'a') ++ " x"

/-- The store after nominating Bob and picking the position Eng. -/
def c2AfterPick : StoreState :=
  run (initState [] [])
    [.submitCmd "u" "i" "http://a Bob" "t1", .pickPos 0 "i" "u" "Eng" "m1"]

/-- A store in which user u already has nine completed submissions for
the position P. -/
def c3QuotaState : StoreState :=
  { initState [] [] with
    done_submissions_by_user :=
      [(some "u", [(some "P",
        [(some "c1", 0), (some "c2", 1), (some "c3", 2), (some "c4", 3),
         (some "c5", 4), (some "c6", 5), (some "c7", 6), (some "c8", 7),
         (some "c9", 8)])])] }

/-- The store after one accepted nomination of Bob. -/
def c4AfterSubmit : StoreState :=
  (partybot_submit (initState [] []) "u" "i" "http://a Bob" "t1").1

/-- The Submission object that nomination created. -/
def c4Sub : Submission :=
  ⟨some "u", some "Bob", some "http://a", none, some "t1", none, none, false⟩

/-- An oversized nomination command for the length rejection. -/
def c5LongText : String :=
  String.mk (List.replicate 300 'b')

/-- A store in which user v already has nine completed submissions for
the position Q. -/
def c5QuotaState : StoreState :=
  { initState [] [] with
    done_submissions_by_user :=
      [(some "v", [(some "Q",
        [(some "d1", 0), (some "d2", 1), (some "d3", 2), (some "d4", 3),
         (some "d5", 4), (some "d6", 5), (some "d7", 6), (some "d8", 7),
         (some "d9", 8)])])] }

/-- The store after one accepted nomination of Bob, for the duplicate
rejection witness. -/
def c5AfterSubmit : StoreState :=
  (partybot_submit (initState [] []) "u" "i" "http://a Bob" "t1").1

/-- Nominate Bob, complete it for Eng, cancel the completed submission,
nominate Bob again, and complete the new one for Eng: the second
completion overwrites the completed-map entry of token 0. -/
def c6Trace : List Event :=
  [.submitCmd "u" "i" "http://a Bob" "t1",
   .pickPos 0 "i" "u" "Eng" "m1",
   .cancelAct 0 "i",
   .submitCmd "u" "i" "http://a Bob" "t2",
   .pickPos 1 "i" "u" "Eng" "m2"]

/-- The store after one accepted nomination of Bob, for the message
handler. -/
def c7AfterSubmit : StoreState :=
  (partybot_submit (initState [] []) "u" "i" "http://a Bob" "t1").1

/-- The Submission object active in that store under token 0. -/
def c7Sub : Submission :=
  ⟨some "u", some "Bob", some "http://a", none, some "t1", none, none, false⟩

/-- The store after nominating Bob and cancelling, for the raising
second cancel. -/
def c10AfterCancel : StoreState :=
  run (initState [] []) [.submitCmd "u" "i" "http://a Bob" "t1", .cancelAct 0 "i"]

/-- The Submission object still registered under token 0 there. -/
def c10Sub : Submission :=
  ⟨some "u", some "Bob", some "http://a", none, some "t1", none, none, false⟩

/-! ### Association list lemmas -/

theorem lookupA_insertA_self {α β : Type} [DecidableEq α]
    (l : List (α × β)) (a : α) (b : β) :
    lookupA (insertA l a b) a = some b := by
  induction l with
  | nil => simp [insertA, lookupA]
  | cons hd t ih =>
    by_cases h : hd.1 = a
    · simp [insertA, lookupA, h]
    · simpa [insertA, lookupA, h] using ih

theorem lookupA_insertA_ne {α β : Type} [DecidableEq α]
    (l : List (α × β)) (a x : α) (b : β) (h : x ≠ a) :
    lookupA (insertA l a b) x = lookupA l x := by
  induction l with
  | nil => simp [insertA, lookupA, Ne.symm h]
  | cons hd t ih =>
    by_cases h1 : hd.1 = a
    · simp [insertA, lookupA, h1, Ne.symm h]
    · by_cases h2 : hd.1 = x <;>
        simp [insertA, lookupA, h1, h2, h, Ne.symm h, ih]

theorem mem_insertA {α β : Type} [DecidableEq α]
    {l : List (α × β)} {a : α} {b : β} {q : α × β} (h : q ∈ insertA l a b) :
    q = (a, b) ∨ q ∈ l := by
  induction l with
  | nil => simpa [insertA] using h
  | cons hd t ih =>
    by_cases h1 : hd.1 = a
    · rcases (by simpa [insertA, h1] using h : q = (a, b) ∨ q ∈ t) with h2 | h2
      · exact Or.inl h2
      · exact Or.inr (List.mem_cons_of_mem _ h2)
    · rcases (by simpa [insertA, h1] using h : q = hd ∨ q ∈ insertA t a b) with h2 | h2
      · exact Or.inr (h2 ▸ List.mem_cons_self _ _)
      · rcases ih h2 with h3 | h3
        · exact Or.inl h3
        · exact Or.inr (List.mem_cons_of_mem _ h3)

theorem lookupA_mem {α β : Type} [DecidableEq α]
    {l : List (α × β)} {a : α} {b : β} (h : lookupA l a = some b) :
    (a, b) ∈ l := by
  induction l with
  | nil => simp [lookupA] at h
  | cons hd t ih =>
    obtain ⟨k, v⟩ := hd
    by_cases h1 : k = a
    · have h2 : v = b := by simpa [lookupA, h1] using h
      subst h1
      subst h2
      exact List.mem_cons_self _ _
    · exact List.mem_cons_of_mem _ (ih (by simpa [lookupA, h1] using h))

theorem not_mem_setRemove_self (x : String) (l : List String) :
    x ∉ setRemove x l := by
  simp [setRemove]

theorem mem_setAdd_self (x : String) (l : List String) :
    x ∈ setAdd x l := by
  by_cases h : x ∈ l <;> simp [setAdd, h]

/-! ### Tokens referenced by the completed-submissions map -/

theorem mem_completedTokens_insert {d : CompletedMap} {u p c : Option String}
    {tok x : Nat} (h : x ∈ completedTokens (completedInsert d u p c tok)) :
    x = tok ∨ x ∈ completedTokens d := by
  unfold completedInsert completedTokens at h
  unfold completedTokens
  rw [List.mem_flatMap] at h
  obtain ⟨um, hum, hx⟩ := h
  rcases mem_insertA hum with rfl | humd
  · rw [List.mem_flatMap] at hx
    obtain ⟨pm, hpm, hx2⟩ := hx
    rcases mem_insertA hpm with rfl | hpmd
    · rw [List.mem_map] at hx2
      obtain ⟨cm, hcm, rfl⟩ := hx2
      rcases mem_insertA hcm with rfl | hcmd
      · exact Or.inl rfl
      · right
        cases hdu : lookupA d u with
        | none => rw [hdu] at hcmd; simp [lookupA] at hcmd
        | some um0 =>
          rw [hdu] at hcmd
          simp only [Option.getD_some] at hcmd
          cases hup : lookupA um0 p with
          | none => rw [hup] at hcmd; simp at hcmd
          | some pm0 =>
            rw [hup] at hcmd
            simp only [Option.getD_some] at hcmd
            exact List.mem_flatMap.mpr ⟨(u, um0), lookupA_mem hdu,
              List.mem_flatMap.mpr ⟨(p, pm0), lookupA_mem hup,
                List.mem_map.mpr ⟨cm, hcmd, rfl⟩⟩⟩
    · right
      cases hdu : lookupA d u with
      | none => rw [hdu] at hpmd; simp [lookupA] at hpmd
      | some um0 =>
        rw [hdu] at hpmd
        simp only [Option.getD_some] at hpmd
        exact List.mem_flatMap.mpr ⟨(u, um0), lookupA_mem hdu,
          List.mem_flatMap.mpr ⟨pm, hpmd, hx2⟩⟩
  · exact Or.inr (List.mem_flatMap.mpr ⟨um, humd, hx⟩)

/-! ### Branch characterizations of the handlers -/

theorem submit_eq_maxLength (s : StoreState) (un ui t ts : String)
    (hlen : t.length > MAX_COMMAND_LENGTH) :
    partybot_submit s un ui t ts = (s, [.respond .maxLength]) := by
  simp [partybot_submit, hlen]

theorem submit_eq_emptyName (s : StoreState) (un ui t ts : String)
    (hlen : ¬ t.length > MAX_COMMAND_LENGTH)
    (hname : (parseCommand t).2 = "") :
    partybot_submit s un ui t ts =
      (s, urlWarnEffects (parseCommand t).1 ++ [.respond .emptyName]) := by
  simp [partybot_submit, hlen, hname]

theorem submit_eq_knownPool (s : StoreState) (un ui t ts : String)
    (hlen : ¬ t.length > MAX_COMMAND_LENGTH)
    (hname : (parseCommand t).2 ≠ "")
    (hknown : canonicalize_name (parseCommand t).2 ∈
      s.known_candidates.map Prod.snd) :
    partybot_submit s un ui t ts =
      (s, urlWarnEffects (parseCommand t).1 ++ [.respond .knownPool]) := by
  simp [partybot_submit, hlen, hname, hknown]

theorem submit_eq_duplicate (s : StoreState) (un ui t ts : String)
    (hlen : ¬ t.length > MAX_COMMAND_LENGTH)
    (hname : (parseCommand t).2 ≠ "")
    (hknown : canonicalize_name (parseCommand t).2 ∉
      s.known_candidates.map Prod.snd)
    (hsub : canonicalize_name (parseCommand t).2 ∈ s.submitted_candidates) :
    partybot_submit s un ui t ts =
      (s, urlWarnEffects (parseCommand t).1 ++ [.respond .duplicate]) := by
  simp [partybot_submit, hlen, hname, hknown, hsub]

theorem submit_eq_accept (s : StoreState) (un ui t ts : String)
    (hlen : ¬ t.length > MAX_COMMAND_LENGTH)
    (hname : (parseCommand t).2 ≠ "")
    (hknown : canonicalize_name (parseCommand t).2 ∉
      s.known_candidates.map Prod.snd)
    (hsub : canonicalize_name (parseCommand t).2 ∉ s.submitted_candidates) :
    partybot_submit s un ui t ts =
      ({ s with
         submitted_candidates :=
           setAdd (canonicalize_name (parseCommand t).2) s.submitted_candidates
         submissions_by_token :=
           insertA s.submissions_by_token s.nextToken
             (newSubmission un (parseCommand t).2 (parseCommand t).1 ts)
         current_token_by_user_id :=
           insertA s.current_token_by_user_id ui s.nextToken
         nextToken := s.nextToken + 1 },
       urlWarnEffects (parseCommand t).1 ++
         [.logInfo, .postMessage ui .picker]) := by
  simp [partybot_submit, hlen, hname, hknown, hsub]

theorem pick_eq_quota (s : StoreState) (token : Nat) (ui un pos mts : String)
    (hq : CANDIDATE_LIMIT ≤ (completedGet s.done_submissions_by_user
      (some un) (some pos)).length) :
    pick_position s token ui un pos mts = (s, [.postMessage ui .quota]) := by
  simp [pick_position, hq]

theorem pick_eq_missing (s : StoreState) (token : Nat) (ui un pos mts : String)
    (hq : ¬ CANDIDATE_LIMIT ≤ (completedGet s.done_submissions_by_user
      (some un) (some pos)).length)
    (hm : lookupA s.submissions_by_token token = none) :
    pick_position s token ui un pos mts =
      (s, [.logError, .postMessage ui .internalError]) := by
  simp [pick_position, hq, hm]

theorem pick_eq_found (s : StoreState) (token : Nat) (ui un pos mts : String)
    (sub : Submission)
    (hq : ¬ CANDIDATE_LIMIT ≤ (completedGet s.done_submissions_by_user
      (some un) (some pos)).length)
    (hm : lookupA s.submissions_by_token token = some sub) :
    pick_position s token ui un pos mts =
      ((finish_submission s ui token
          { sub with position := some pos, ts := some mts }).1,
       [.postMessage ui .positionSelected, .logInfo] ++
        (finish_submission s ui token
          { sub with position := some pos, ts := some mts }).2) := by
  simp [pick_position, hq, hm]

theorem cancel_eq_missing (s : StoreState) (token : Nat) (ui : String)
    (hm : lookupA s.submissions_by_token token = none) :
    cancel_submission s token ui = .error .attributeError := by
  simp [cancel_submission, hm]

theorem cancel_eq_keyError (s : StoreState) (token : Nat) (ui : String)
    (sub : Submission) (cand : String)
    (hm : lookupA s.submissions_by_token token = some sub)
    (hc : sub.candidate = some cand)
    (hmem : canonicalize_name cand ∉ s.submitted_candidates) :
    cancel_submission s token ui = .error .keyError := by
  simp [cancel_submission, hm, hc, hmem]

theorem cancel_eq_ok (s : StoreState) (token : Nat) (ui : String)
    (sub : Submission) (cand : String)
    (hm : lookupA s.submissions_by_token token = some sub)
    (hc : sub.candidate = some cand)
    (hmem : canonicalize_name cand ∈ s.submitted_candidates) :
    cancel_submission s token ui =
      .ok ({ s with submitted_candidates :=
               setRemove (canonicalize_name cand) s.submitted_candidates },
           [.postMessage ui .canceled, .chatDelete ui sub.ts, .logInfo]) := by
  simp [cancel_submission, hm, hc, hmem]

theorem message_eq_noToken (s : StoreState) (uid text : String)
    (file : Option String)
    (h1 : lookupA s.current_token_by_user_id uid = none) :
    extra_info_message s (some uid) text file = (s, [.logInfo]) := by
  simp [extra_info_message, h1]

theorem message_eq_noSub (s : StoreState) (uid text : String)
    (file : Option String) (token : Nat)
    (h1 : lookupA s.current_token_by_user_id uid = some token)
    (h2 : lookupA s.submissions_by_token token = none) :
    extra_info_message s (some uid) text file = (s, [.logInfo]) := by
  simp [extra_info_message, h1, h2]

theorem message_eq_done (s : StoreState) (uid text : String)
    (file : Option String) (token : Nat) (sub : Submission)
    (h1 : lookupA s.current_token_by_user_id uid = some token)
    (h2 : lookupA s.submissions_by_token token = some sub)
    (hd : sub.done = true) :
    extra_info_message s (some uid) text file = (s, []) := by
  simp [extra_info_message, h1, h2, hd]

theorem message_eq_update (s : StoreState) (uid text : String)
    (file : Option String) (token : Nat) (sub : Submission)
    (h1 : lookupA s.current_token_by_user_id uid = some token)
    (h2 : lookupA s.submissions_by_token token = some sub)
    (hd : sub.done = false)
    (hp : sub.position = none) :
    extra_info_message s (some uid) text file =
      ({ s with submissions_by_token :=
           insertA s.submissions_by_token token (updatedSubmission sub text file) },
       [.postMessage uid .infoSaved]) := by
  simp [extra_info_message, h1, h2, hd, updatedSubmission, hp]

theorem message_eq_updateEmptyPos (s : StoreState) (uid text : String)
    (file : Option String) (token : Nat) (sub : Submission)
    (h1 : lookupA s.current_token_by_user_id uid = some token)
    (h2 : lookupA s.submissions_by_token token = some sub)
    (hd : sub.done = false)
    (hp : sub.position = some "") :
    extra_info_message s (some uid) text file =
      ({ s with submissions_by_token :=
           insertA s.submissions_by_token token (updatedSubmission sub text file) },
       [.postMessage uid .infoSaved]) := by
  simp [extra_info_message, h1, h2, hd, updatedSubmission, hp]

theorem message_eq_finish (s : StoreState) (uid text : String)
    (file : Option String) (token : Nat) (sub : Submission) (p : String)
    (h1 : lookupA s.current_token_by_user_id uid = some token)
    (h2 : lookupA s.submissions_by_token token = some sub)
    (hd : sub.done = false)
    (hp : sub.position = some p)
    (hpe : p ≠ "") :
    extra_info_message s (some uid) text file =
      ((finish_submission
          ({ s with submissions_by_token :=
               insertA s.submissions_by_token token (updatedSubmission sub text file) }) uid token
          (updatedSubmission sub text file)).1,
       [.postMessage uid .infoSaved] ++
        (finish_submission
          ({ s with submissions_by_token :=
               insertA s.submissions_by_token token (updatedSubmission sub text file) }) uid token
          (updatedSubmission sub text file)).2) := by
  simp [extra_info_message, h1, h2, hd, updatedSubmission, hp, hpe]

/-! ### The reachability invariant: every token registered in the store
is below the fresh-token counter, and every token referenced by the
completed-submissions map resolves to a Submission whose done flag is
set. -/

def InvTok (s : StoreState) : Prop :=
  ∀ tok sub, lookupA s.submissions_by_token tok = some sub → tok < s.nextToken

def InvDone (s : StoreState) : Prop :=
  ∀ tok, tok ∈ completedTokens s.done_submissions_by_user →
    ∃ sub, lookupA s.submissions_by_token tok = some sub ∧ sub.done = true

def Inv (s : StoreState) : Prop := InvTok s ∧ InvDone s

theorem finish_preserves_Inv (s : StoreState) (ui : String) (token : Nat)
    (sub : Submission) (h : Inv s) (htok : token < s.nextToken) :
    Inv (finish_submission s ui token sub).1 := by
  constructor
  · intro tok sub' hl
    simp only [finish_submission] at hl ⊢
    by_cases he : tok = token
    · subst he; exact htok
    · rw [lookupA_insertA_ne _ _ _ _ he] at hl
      exact h.1 tok sub' hl
  · intro tok hmem
    simp only [finish_submission] at hmem ⊢
    rcases mem_completedTokens_insert hmem with rfl | hold
    · exact ⟨{ sub with done := true }, lookupA_insertA_self _ _ _, rfl⟩
    · by_cases he : tok = token
      · subst he
        exact ⟨{ sub with done := true }, lookupA_insertA_self _ _ _, rfl⟩
      · obtain ⟨sub', hs, hd⟩ := h.2 tok hold
        exact ⟨sub', by rw [lookupA_insertA_ne _ _ _ _ he]; exact hs, hd⟩

theorem submit_preserves_Inv (s : StoreState) (un ui t ts : String)
    (h : Inv s) : Inv (partybot_submit s un ui t ts).1 := by
  by_cases hlen : t.length > MAX_COMMAND_LENGTH
  · rw [submit_eq_maxLength s un ui t ts hlen]; exact h
  by_cases hname : (parseCommand t).2 = ""
  · rw [submit_eq_emptyName s un ui t ts hlen hname]; exact h
  by_cases hknown : canonicalize_name (parseCommand t).2 ∈
      s.known_candidates.map Prod.snd
  · rw [submit_eq_knownPool s un ui t ts hlen hname hknown]; exact h
  by_cases hsub : canonicalize_name (parseCommand t).2 ∈ s.submitted_candidates
  · rw [submit_eq_duplicate s un ui t ts hlen hname hknown hsub]; exact h
  rw [submit_eq_accept s un ui t ts hlen hname hknown hsub]
  constructor
  · intro tok sub hl
    simp only at hl ⊢
    by_cases he : tok = s.nextToken
    · subst he; omega
    · rw [lookupA_insertA_ne _ _ _ _ he] at hl
      have := h.1 tok sub hl
      omega
  · intro tok hmem
    simp only at hmem ⊢
    obtain ⟨sub', hs, hd⟩ := h.2 tok hmem
    have hlt := h.1 tok sub' hs
    refine ⟨sub', ?_, hd⟩
    rw [lookupA_insertA_ne _ _ _ _ (by omega)]
    exact hs

theorem pick_preserves_Inv (s : StoreState) (token : Nat)
    (ui un pos mts : String) (h : Inv s) :
    Inv (pick_position s token ui un pos mts).1 := by
  by_cases hq : CANDIDATE_LIMIT ≤ (completedGet s.done_submissions_by_user
      (some un) (some pos)).length
  · rw [pick_eq_quota s token ui un pos mts hq]; exact h
  cases hm : lookupA s.submissions_by_token token with
  | none => rw [pick_eq_missing s token ui un pos mts hq hm]; exact h
  | some sub =>
    rw [pick_eq_found s token ui un pos mts sub hq hm]
    exact finish_preserves_Inv s ui token
      { sub with position := some pos, ts := some mts } h (h.1 _ _ hm)

theorem message_state_preserves_Inv (s : StoreState) (uid : Option String)
    (text : String) (file : Option String) (h : Inv s) :
    Inv (extra_info_message s uid text file).1 := by
  cases uid with
  | none => exact h
  | some u =>
    cases h1 : lookupA s.current_token_by_user_id u with
    | none => rw [message_eq_noToken s u text file h1]; exact h
    | some token =>
      cases h2 : lookupA s.submissions_by_token token with
      | none => rw [message_eq_noSub s u text file token h1 h2]; exact h
      | some sub =>
        cases hd : sub.done with
        | true => rw [message_eq_done s u text file token sub h1 h2 hd]; exact h
        | false =>
          have htok : token < s.nextToken := h.1 _ _ h2
          have hInv' : Inv { s with submissions_by_token := insertA s.submissions_by_token token (updatedSubmission sub text file) } := by
            constructor
            · intro tok sub' hl
              simp only at hl ⊢
              by_cases he : tok = token
              · subst he; exact htok
              · rw [lookupA_insertA_ne _ _ _ _ he] at hl
                exact h.1 tok sub' hl
            · intro tok hmem
              simp only at hmem ⊢
              obtain ⟨sub', hs, hdone⟩ := h.2 tok hmem
              by_cases he : tok = token
              · exfalso
                subst he
                rw [h2] at hs
                cases hs
                rw [hd] at hdone
                exact Bool.false_ne_true hdone
              · exact ⟨sub', by rw [lookupA_insertA_ne _ _ _ _ he]; exact hs, hdone⟩
          cases hp : sub.position with
          | none =>
            rw [message_eq_update s u text file token sub h1 h2 hd hp]
            exact hInv'
          | some p =>
            by_cases hpe : p = ""
            · subst hpe
              rw [message_eq_updateEmptyPos s u text file token sub h1 h2 hd hp]
              exact hInv'
            · rw [message_eq_finish s u text file token sub p h1 h2 hd hp hpe]
              exact finish_preserves_Inv _ u token
                (updatedSubmission sub text file) hInv' htok

theorem step_preserves_Inv (s : StoreState) (e : Event) (h : Inv s) :
    Inv (step s e) := by
  cases e with
  | submitCmd un ui t ts => exact submit_preserves_Inv s un ui t ts h
  | pickPos tok ui un pos mts => exact pick_preserves_Inv s tok ui un pos mts h
  | cancelAct tok ui =>
    show Inv (match cancel_submission s tok ui with
      | .ok r => r.1 | .error _ => s)
    cases hm : lookupA s.submissions_by_token tok with
    | none => rw [cancel_eq_missing s tok ui hm]; exact h
    | some sub =>
      cases hc : sub.candidate with
      | none => simp only [cancel_submission, hm, hc]; exact h
      | some cand =>
        by_cases hmem : canonicalize_name cand ∈ s.submitted_candidates
        · rw [cancel_eq_ok s tok ui sub cand hm hc hmem]
          exact ⟨h.1, h.2⟩
        · rw [cancel_eq_keyError s tok ui sub cand hm hc hmem]; exact h
  | message uid t f => exact message_state_preserves_Inv s uid t f h

theorem initState_Inv (k : List (String × String)) (p : List String) :
    Inv (initState k p) := by
  constructor
  · intro tok sub hl
    simp [initState, lookupA] at hl
  · intro tok hmem
    simp [initState, completedTokens] at hmem

theorem run_from_Inv : ∀ (es : List Event) (s : StoreState), Inv s →
    Inv (run s es)
  | [], _, h => h
  | e :: es, s, h => run_from_Inv es (step s e) (step_preserves_Inv s e h)

theorem run_Inv (k : List (String × String)) (p : List String)
    (es : List Event) : Inv (run (initState k p) es) :=
  run_from_Inv es _ (initState_Inv k p)

/-! ### The done flag is terminal: no event unsets it. -/

theorem step_done_persists (s : StoreState) (e : Event) (tok : Nat)
    (sub : Submission) (hInv : Inv s)
    (hl : lookupA s.submissions_by_token tok = some sub)
    (hd : sub.done = true) :
    ∃ sub', lookupA (step s e).submissions_by_token tok = some sub' ∧
      sub'.done = true := by
  cases e with
  | submitCmd un ui t ts =>
    show ∃ sub', lookupA (partybot_submit s un ui t ts).1.submissions_by_token
      tok = some sub' ∧ sub'.done = true
    by_cases hlen : t.length > MAX_COMMAND_LENGTH
    · rw [submit_eq_maxLength s un ui t ts hlen]; exact ⟨sub, hl, hd⟩
    by_cases hname : (parseCommand t).2 = ""
    · rw [submit_eq_emptyName s un ui t ts hlen hname]; exact ⟨sub, hl, hd⟩
    by_cases hknown : canonicalize_name (parseCommand t).2 ∈
        s.known_candidates.map Prod.snd
    · rw [submit_eq_knownPool s un ui t ts hlen hname hknown]; exact ⟨sub, hl, hd⟩
    by_cases hsub : canonicalize_name (parseCommand t).2 ∈ s.submitted_candidates
    · rw [submit_eq_duplicate s un ui t ts hlen hname hknown hsub]
      exact ⟨sub, hl, hd⟩
    rw [submit_eq_accept s un ui t ts hlen hname hknown hsub]
    have hlt := hInv.1 tok sub hl
    refine ⟨sub, ?_, hd⟩
    dsimp only
    rw [lookupA_insertA_ne _ _ _ _ (by omega)]
    exact hl
  | pickPos token ui un pos mts =>
    show ∃ sub', lookupA (pick_position s token ui un pos mts).1.submissions_by_token
      tok = some sub' ∧ sub'.done = true
    by_cases hq : CANDIDATE_LIMIT ≤ (completedGet s.done_submissions_by_user
        (some un) (some pos)).length
    · rw [pick_eq_quota s token ui un pos mts hq]; exact ⟨sub, hl, hd⟩
    cases hm : lookupA s.submissions_by_token token with
    | none => rw [pick_eq_missing s token ui un pos mts hq hm]; exact ⟨sub, hl, hd⟩
    | some sub0 =>
      rw [pick_eq_found s token ui un pos mts sub0 hq hm]
      simp only [finish_submission]
      by_cases he : tok = token
      · subst he
        exact ⟨_, lookupA_insertA_self _ _ _, rfl⟩
      · exact ⟨sub, by rw [lookupA_insertA_ne _ _ _ _ he]; exact hl, hd⟩
  | cancelAct token ui =>
    show ∃ sub', lookupA (match cancel_submission s token ui with
        | .ok r => r.1 | .error _ => s).submissions_by_token tok = some sub' ∧
      sub'.done = true
    cases hm : lookupA s.submissions_by_token token with
    | none => rw [cancel_eq_missing s token ui hm]; exact ⟨sub, hl, hd⟩
    | some sub0 =>
      cases hc : sub0.candidate with
      | none => simp only [cancel_submission, hm, hc]; exact ⟨sub, hl, hd⟩
      | some cand =>
        by_cases hmem : canonicalize_name cand ∈ s.submitted_candidates
        · rw [cancel_eq_ok s token ui sub0 cand hm hc hmem]; exact ⟨sub, hl, hd⟩
        · rw [cancel_eq_keyError s token ui sub0 cand hm hc hmem]
          exact ⟨sub, hl, hd⟩
  | message uid t f =>
    cases uid with
    | none => exact ⟨sub, hl, hd⟩
    | some u =>
      show ∃ sub', lookupA (extra_info_message s (some u) t f).1.submissions_by_token
        tok = some sub' ∧ sub'.done = true
      cases h1 : lookupA s.current_token_by_user_id u with
      | none => rw [message_eq_noToken s u t f h1]; exact ⟨sub, hl, hd⟩
      | some token =>
        cases h2 : lookupA s.submissions_by_token token with
        | none => rw [message_eq_noSub s u t f token h1 h2]; exact ⟨sub, hl, hd⟩
        | some sub0 =>
          cases hd0 : sub0.done with
          | true =>
            rw [message_eq_done s u t f token sub0 h1 h2 hd0]; exact ⟨sub, hl, hd⟩
          | false =>
            have hne : tok ≠ token := by
              intro he
              subst he
              rw [hl] at h2
              cases h2
              rw [hd] at hd0
              exact absurd hd0 (by simp)
            cases hp : sub0.position with
            | none =>
              rw [message_eq_update s u t f token sub0 h1 h2 hd0 hp]
              refine ⟨sub, ?_, hd⟩
              dsimp only
              rw [lookupA_insertA_ne _ _ _ _ hne]
              exact hl
            | some p =>
              by_cases hpe : p = ""
              · subst hpe
                rw [message_eq_updateEmptyPos s u t f token sub0 h1 h2 hd0 hp]
                refine ⟨sub, ?_, hd⟩
                dsimp only
                rw [lookupA_insertA_ne _ _ _ _ hne]
                exact hl
              · rw [message_eq_finish s u t f token sub0 p h1 h2 hd0 hp hpe]
                refine ⟨sub, ?_, hd⟩
                simp only [finish_submission]
                rw [lookupA_insertA_ne _ _ _ _ hne, lookupA_insertA_ne _ _ _ _ hne]
                exact hl

theorem run_done_persists : ∀ (es : List Event) (s : StoreState) (tok : Nat)
    (sub : Submission), Inv s →
    lookupA s.submissions_by_token tok = some sub → sub.done = true →
    ∃ sub', lookupA (run s es).submissions_by_token tok = some sub' ∧
      sub'.done = true
  | [], _, _, sub, _, hl, hd => ⟨sub, hl, hd⟩
  | e :: es, s, tok, sub, hInv, hl, hd => by
    obtain ⟨sub', hl', hd'⟩ := step_done_persists s e tok sub hInv hl hd
    exact run_done_persists es (step s e) tok sub'
      (step_preserves_Inv s e hInv) hl' hd'

theorem run_append (s : StoreState) (es es' : List Event) :
    run s (es ++ es') = run (run s es) es' := by
  simp [run, List.foldl_append]

/-! ### Frame lemmas over event sequences: the known-candidates registry
is immutable after load, and a canonical name stays in the submitted set
through every event except a cancel that frees that very name. -/

theorem mem_setAdd_of_mem {c : String} (x : String) {l : List String}
    (h : c ∈ l) : c ∈ setAdd x l := by
  unfold setAdd
  split
  · exact h
  · exact List.mem_append_left _ h

theorem mem_setRemove_of_ne {c x : String} {l : List String}
    (h : c ∈ l) (hne : c ≠ x) : c ∈ setRemove x l := by
  simp [setRemove, h, hne]

theorem submit_known_eq (s : StoreState) (un ui t ts : String) :
    (partybot_submit s un ui t ts).1.known_candidates = s.known_candidates := by
  by_cases hlen : t.length > MAX_COMMAND_LENGTH
  · rw [submit_eq_maxLength s un ui t ts hlen]
  by_cases hname : (parseCommand t).2 = ""
  · rw [submit_eq_emptyName s un ui t ts hlen hname]
  by_cases hknown : canonicalize_name (parseCommand t).2 ∈
      s.known_candidates.map Prod.snd
  · rw [submit_eq_knownPool s un ui t ts hlen hname hknown]
  by_cases hsub : canonicalize_name (parseCommand t).2 ∈ s.submitted_candidates
  · rw [submit_eq_duplicate s un ui t ts hlen hname hknown hsub]
  rw [submit_eq_accept s un ui t ts hlen hname hknown hsub]

theorem step_known_eq (s : StoreState) (e : Event) :
    (step s e).known_candidates = s.known_candidates := by
  cases e with
  | submitCmd un ui t ts => exact submit_known_eq s un ui t ts
  | pickPos token ui un pos mts =>
    show (pick_position s token ui un pos mts).1.known_candidates =
      s.known_candidates
    by_cases hq : CANDIDATE_LIMIT ≤ (completedGet s.done_submissions_by_user
        (some un) (some pos)).length
    · rw [pick_eq_quota s token ui un pos mts hq]
    cases hm : lookupA s.submissions_by_token token with
    | none => rw [pick_eq_missing s token ui un pos mts hq hm]
    | some sub =>
      rw [pick_eq_found s token ui un pos mts sub hq hm]
      rfl
  | cancelAct token ui =>
    show (match cancel_submission s token ui with
        | .ok r => r.1 | .error _ => s).known_candidates = s.known_candidates
    cases hm : lookupA s.submissions_by_token token with
    | none => rw [cancel_eq_missing s token ui hm]
    | some sub =>
      cases hc : sub.candidate with
      | none => simp only [cancel_submission, hm, hc]
      | some cand =>
        by_cases hmem : canonicalize_name cand ∈ s.submitted_candidates
        · rw [cancel_eq_ok s token ui sub cand hm hc hmem]
        · rw [cancel_eq_keyError s token ui sub cand hm hc hmem]
  | message uid t f =>
    cases uid with
    | none => rfl
    | some u =>
      show (extra_info_message s (some u) t f).1.known_candidates =
        s.known_candidates
      cases h1 : lookupA s.current_token_by_user_id u with
      | none => rw [message_eq_noToken s u t f h1]
      | some token =>
        cases h2 : lookupA s.submissions_by_token token with
        | none => rw [message_eq_noSub s u t f token h1 h2]
        | some sub =>
          cases hd : sub.done with
          | true => rw [message_eq_done s u t f token sub h1 h2 hd]
          | false =>
            cases hp : sub.position with
            | none => rw [message_eq_update s u t f token sub h1 h2 hd hp]
            | some p =>
              by_cases hpe : p = ""
              · subst hpe
                rw [message_eq_updateEmptyPos s u t f token sub h1 h2 hd hp]
              · rw [message_eq_finish s u t f token sub p h1 h2 hd hp hpe]
                rfl

theorem run_known_eq : ∀ (es : List Event) (s : StoreState),
    (run s es).known_candidates = s.known_candidates
  | [], _ => rfl
  | e :: es, s => (run_known_eq es (step s e)).trans (step_known_eq s e)

theorem submitted_persists_step (s : StoreState) (c : String) (e : Event)
    (hc : c ∈ s.submitted_candidates) (hf : freesName s c e = false) :
    c ∈ (step s e).submitted_candidates := by
  cases e with
  | submitCmd un ui t ts =>
    show c ∈ (partybot_submit s un ui t ts).1.submitted_candidates
    by_cases hlen : t.length > MAX_COMMAND_LENGTH
    · rw [submit_eq_maxLength s un ui t ts hlen]; exact hc
    by_cases hname : (parseCommand t).2 = ""
    · rw [submit_eq_emptyName s un ui t ts hlen hname]; exact hc
    by_cases hknown : canonicalize_name (parseCommand t).2 ∈
        s.known_candidates.map Prod.snd
    · rw [submit_eq_knownPool s un ui t ts hlen hname hknown]; exact hc
    by_cases hsub : canonicalize_name (parseCommand t).2 ∈ s.submitted_candidates
    · rw [submit_eq_duplicate s un ui t ts hlen hname hknown hsub]; exact hc
    rw [submit_eq_accept s un ui t ts hlen hname hknown hsub]
    exact mem_setAdd_of_mem _ hc
  | pickPos token ui un pos mts =>
    show c ∈ (pick_position s token ui un pos mts).1.submitted_candidates
    by_cases hq : CANDIDATE_LIMIT ≤ (completedGet s.done_submissions_by_user
        (some un) (some pos)).length
    · rw [pick_eq_quota s token ui un pos mts hq]; exact hc
    cases hm : lookupA s.submissions_by_token token with
    | none => rw [pick_eq_missing s token ui un pos mts hq hm]; exact hc
    | some sub =>
      rw [pick_eq_found s token ui un pos mts sub hq hm]
      simp only [finish_submission]
      exact hc
  | cancelAct token ui =>
    show c ∈ (match cancel_submission s token ui with
        | .ok r => r.1 | .error _ => s).submitted_candidates
    cases hm : lookupA s.submissions_by_token token with
    | none => rw [cancel_eq_missing s token ui hm]; exact hc
    | some sub =>
      cases hcand : sub.candidate with
      | none => simp only [cancel_submission, hm, hcand]; exact hc
      | some cand =>
        by_cases hmem : canonicalize_name cand ∈ s.submitted_candidates
        · rw [cancel_eq_ok s token ui sub cand hm hcand hmem]
          have hne : c ≠ canonicalize_name cand := by
            simp only [freesName, hm, hcand] at hf
            simp at hf
            exact fun he => hf he.symm
          exact mem_setRemove_of_ne hc hne
        · rw [cancel_eq_keyError s token ui sub cand hm hcand hmem]; exact hc
  | message uid t f =>
    cases uid with
    | none => exact hc
    | some u =>
      show c ∈ (extra_info_message s (some u) t f).1.submitted_candidates
      cases h1 : lookupA s.current_token_by_user_id u with
      | none => rw [message_eq_noToken s u t f h1]; exact hc
      | some token =>
        cases h2 : lookupA s.submissions_by_token token with
        | none => rw [message_eq_noSub s u t f token h1 h2]; exact hc
        | some sub =>
          cases hd : sub.done with
          | true => rw [message_eq_done s u t f token sub h1 h2 hd]; exact hc
          | false =>
            cases hp : sub.position with
            | none =>
              rw [message_eq_update s u t f token sub h1 h2 hd hp]; exact hc
            | some p =>
              by_cases hpe : p = ""
              · subst hpe
                rw [message_eq_updateEmptyPos s u t f token sub h1 h2 hd hp]
                exact hc
              · rw [message_eq_finish s u t f token sub p h1 h2 hd hp hpe]
                simp only [finish_submission]
                exact hc

theorem submitted_persists_run : ∀ (es : List Event) (s : StoreState)
    (c : String), c ∈ s.submitted_candidates → nameSafe c s es = true →
    c ∈ (run s es).submitted_candidates
  | [], _, _, hc, _ => hc
  | e :: es, s, c, hc, hsafe => by
    have h2 : freesName s c e = false ∧ nameSafe c (step s e) es = true := by
      simpa [nameSafe, Bool.and_eq_true] using hsafe
    exact submitted_persists_run es (step s e) c
      (submitted_persists_step s c e hc h2.1) h2.2

/-! ### Acceptance decomposition for the submit handler -/

theorem picker_not_mem_reject (ui url : String) (m : Msg) :
    Effect.postMessage ui Msg.picker ∉
      urlWarnEffects url ++ [Effect.respond m] := by
  unfold urlWarnEffects
  split <;> simp

theorem submit_accepted_state (s s1 : StoreState) (e1 : List Effect)
    (un ui t ts : String)
    (hacc : partybot_submit s un ui t ts = (s1, e1))
    (hpick : Effect.postMessage ui Msg.picker ∈ e1) :
    ¬ t.length > MAX_COMMAND_LENGTH ∧
    (parseCommand t).2 ≠ "" ∧
    canonicalize_name (parseCommand t).2 ∉ s.known_candidates.map Prod.snd ∧
    canonicalize_name (parseCommand t).2 ∉ s.submitted_candidates ∧
    s1.known_candidates = s.known_candidates ∧
    canonicalize_name (parseCommand t).2 ∈ s1.submitted_candidates := by
  by_cases hlen : t.length > MAX_COMMAND_LENGTH
  · rw [submit_eq_maxLength s un ui t ts hlen] at hacc
    injection hacc with h1 h2
    subst h2
    simp at hpick
  by_cases hname : (parseCommand t).2 = ""
  · rw [submit_eq_emptyName s un ui t ts hlen hname] at hacc
    injection hacc with h1 h2
    subst h2
    exact absurd hpick (picker_not_mem_reject ui (parseCommand t).1 _)
  by_cases hknown : canonicalize_name (parseCommand t).2 ∈
      s.known_candidates.map Prod.snd
  · rw [submit_eq_knownPool s un ui t ts hlen hname hknown] at hacc
    injection hacc with h1 h2
    subst h2
    exact absurd hpick (picker_not_mem_reject ui (parseCommand t).1 _)
  by_cases hsub : canonicalize_name (parseCommand t).2 ∈ s.submitted_candidates
  · rw [submit_eq_duplicate s un ui t ts hlen hname hknown hsub] at hacc
    injection hacc with h1 h2
    subst h2
    exact absurd hpick (picker_not_mem_reject ui (parseCommand t).1 _)
  rw [submit_eq_accept s un ui t ts hlen hname hknown hsub] at hacc
  injection hacc with h1 h2
  subst h1
  exact ⟨hlen, hname, hknown, hsub, rfl, mem_setAdd_self _ _⟩

/-! ### Claim theorems -/

set_option maxRecDepth 4000 in
/-- C1, counterexample: the first nomination of x is accepted, and the
second command carries a candidate name with the same canonicalization,
yet because its total text exceeds the length limit it is rejected with
the maximal-length message rather than the duplicate message. -/
theorem c1_counterexample :
    canonicalize_name (parseCommand c1LongText).2 =
      canonicalize_name (parseCommand "http://a x").2 ∧
    Effect.postMessage "i" Msg.picker ∈ c1AfterEffects ∧
    partybot_submit c1AfterSubmit "u" "i" c1LongText "t2" =
      (c1AfterSubmit, [.respond .maxLength]) ∧
    Effect.respond Msg.duplicate ∉
      (partybot_submit c1AfterSubmit "u" "i" c1LongText "t2").2 := by
  refine ⟨?_, ?_, ?_, ?_⟩ <;> decide

/-- C1, amended: when a nomination is accepted, any sequence of further
events is dispatched in which no cancel interaction frees that canonical
name — the set removal in cancel_submission is the only operation that
takes a name out of the submitted set, and it removes the canonical name
of whatever Submission the cancel token resolves to — and then a second
nomination command whose candidate name canonicalizes to the same string
is submitted, the second nomination is rejected with the duplicate
message and the store is returned exactly unchanged, provided the second
command does not exceed the length limit and its candidate name is
non-empty.  In particular the rejection holds while the first submission
is pending and after it completes, across intervening picks, messages
and other nominations; an oversized or empty-named second command is
instead rejected earlier with a different message, as the counterexample
shows. -/
theorem c1_duplicate_rejected (s s1 : StoreState) (e1 : List Effect)
    (es : List Event) (un1 ui1 t1 ts1 un2 ui2 t2 ts2 : String)
    (hacc : partybot_submit s un1 ui1 t1 ts1 = (s1, e1))
    (hpick : Effect.postMessage ui1 Msg.picker ∈ e1)
    (hsafe : nameSafe (canonicalize_name (parseCommand t1).2) s1 es = true)
    (hlen2 : ¬ t2.length > MAX_COMMAND_LENGTH)
    (hname2 : (parseCommand t2).2 ≠ "")
    (hcanon : canonicalize_name (parseCommand t2).2 =
      canonicalize_name (parseCommand t1).2) :
    partybot_submit (run s1 es) un2 ui2 t2 ts2 =
      (run s1 es,
       urlWarnEffects (parseCommand t2).1 ++ [.respond .duplicate]) := by
  obtain ⟨hlen1, hname1, hknown1, hsub1, hkeq, hmem1⟩ :=
    submit_accepted_state s s1 e1 un1 ui1 t1 ts1 hacc hpick
  have hmem2 : canonicalize_name (parseCommand t1).2 ∈
      (run s1 es).submitted_candidates :=
    submitted_persists_run es s1 _ hmem1 hsafe
  have hknown2 : canonicalize_name (parseCommand t1).2 ∉
      (run s1 es).known_candidates.map Prod.snd := by
    rw [run_known_eq es s1, hkeq]
    exact hknown1
  refine submit_eq_duplicate (run s1 es) un2 ui2 t2 ts2 hlen2 hname2 ?_ ?_
  · rw [hcanon]
    exact hknown2
  · rw [hcanon]
    exact hmem2

/-- C1, witness for the amended theorem: nominate x, complete the
submission by picking a position, and then renominate x: the second
in-limit nomination is rejected as a duplicate with the store returned
unchanged, even though the first submission already completed. -/
theorem c1_witness :
    partybot_submit (run c1AfterSubmit [.pickPos 0 "i" "u" "Eng" "m1"])
        "u2" "i2" "http://b x" "t2" =
      (run c1AfterSubmit [.pickPos 0 "i" "u" "Eng" "m1"],
       urlWarnEffects (parseCommand "http://b x").1 ++
         [.respond .duplicate]) :=
  c1_duplicate_rejected (initState [] []) c1AfterSubmit c1AfterEffects
    [.pickPos 0 "i" "u" "Eng" "m1"] "u" "i" "http://a x" "t1" "u2" "i2"
    "http://b x" "t2" rfl (by decide) (by decide) (by decide) (by decide)
    (by decide)

/-- C2, counterexample: after Bob is nominated and completed for Eng,
the Submission under token 0 is already done, yet a second position-pick
interaction carrying the same token re-triggers the file rewrite, so the
transition to done is not a once-only event as claimed. -/
theorem c2_counterexample :
    ((lookupA c2AfterPick.submissions_by_token 0).map Submission.done =
      some true) ∧
    (pick_position c2AfterPick 0 "i" "u" "Eng" "m2").2.any Effect.isSave =
      true := by
  constructor
  · decide
  · decide

/-- C2, amended: the done flag itself is terminal: once a Submission
registered in the token map is done in a reachable store, it stays done
after any further sequence of events; the source however re-runs the
completion side effects, including the file rewrite, when a second
position-pick carries the same token, as the counterexample shows. -/
theorem c2_done_is_terminal (k : List (String × String)) (p : List String)
    (es es' : List Event) (tok : Nat) (sub : Submission)
    (hl : lookupA (run (initState k p) es).submissions_by_token tok = some sub)
    (hd : sub.done = true) :
    ∃ sub', lookupA (run (initState k p) (es ++ es')).submissions_by_token tok
      = some sub' ∧ sub'.done = true := by
  rw [run_append]
  exact run_done_persists es' _ tok sub (run_Inv k p es) hl hd

/-- C2, witness for the amended theorem at a concrete trace. -/
theorem c2_witness :
    ∃ sub', lookupA (run (initState [] [])
        ([.submitCmd "u" "i" "http://a Bob" "t1", .pickPos 0 "i" "u" "Eng" "m1"]
          ++ [.pickPos 0 "i" "u" "Eng" "m2"])).submissions_by_token 0 =
      some sub' ∧ sub'.done = true :=
  c2_done_is_terminal [] []
    [.submitCmd "u" "i" "http://a Bob" "t1", .pickPos 0 "i" "u" "Eng" "m1"]
    [.pickPos 0 "i" "u" "Eng" "m2"] 0
    ⟨some "u", some "Bob", some "http://a", some "Eng", some "m1", none, none,
     true⟩ (by decide) rfl

/-- C3: when the submitter already has at least CANDIDATE_LIMIT
completed submissions for the chosen position, the position-pick is
refused with a notification to the user and the store is returned
exactly unchanged, so nothing is marked done and neither the completed
map nor the persisted file is touched. -/
theorem c3_quota_refused (s : StoreState) (token : Nat)
    (ui un pos mts : String)
    (hq : CANDIDATE_LIMIT ≤ (completedGet s.done_submissions_by_user
      (some un) (some pos)).length) :
    pick_position s token ui un pos mts = (s, [.postMessage ui .quota]) :=
  pick_eq_quota s token ui un pos mts hq

/-- C3, witness at a store with nine completed submissions. -/
theorem c3_witness :
    CANDIDATE_LIMIT ≤ (completedGet c3QuotaState.done_submissions_by_user
      (some "u") (some "P")).length ∧
    pick_position c3QuotaState 0 "i" "u" "P" "m" =
      (c3QuotaState, [.postMessage "i" .quota]) :=
  ⟨by decide, c3_quota_refused c3QuotaState 0 "i" "u" "P" "m" (by decide)⟩

/-- C6, counterexample: running c6Trace leaves the Submission under
token 0 done while no entry of the completed-submissions map references
token 0 any more, because cancelling the completed submission freed the
canonical name and the repeated nomination overwrote the entry; the
claimed equivalence between done and presence in the completed map
therefore fails. -/
theorem c6_counterexample :
    ((lookupA (run (initState [] []) c6Trace).submissions_by_token 0).map
      Submission.done = some true) ∧
    0 ∉ completedTokens
      (run (initState [] []) c6Trace).done_submissions_by_user := by
  constructor
  · decide
  · decide

/-- C6, amended: in every reachable store, the forward half of the
claimed invariant holds: every token referenced by the
completed-submissions map resolves to a Submission whose done flag is
true (equivalently, no Submission with done false is ever visible
there); the converse direction fails as the counterexample shows. -/
theorem c6_completed_implies_done (k : List (String × String))
    (p : List String) (es : List Event) (tok : Nat)
    (h : tok ∈ completedTokens
      (run (initState k p) es).done_submissions_by_user) :
    ∃ sub, lookupA (run (initState k p) es).submissions_by_token tok =
      some sub ∧ sub.done = true :=
  (run_Inv k p es).2 tok h

/-- C6, witness for the amended theorem at a concrete trace. -/
theorem c6_witness :
    0 ∈ completedTokens (run (initState [] [])
      [.submitCmd "u" "i" "http://a Bob" "t1", .pickPos 0 "i" "u" "Eng" "m1"]
      ).done_submissions_by_user ∧
    ∃ sub, lookupA (run (initState [] [])
      [.submitCmd "u" "i" "http://a Bob" "t1", .pickPos 0 "i" "u" "Eng" "m1"]
      ).submissions_by_token 0 = some sub ∧ sub.done = true :=
  ⟨by decide, c6_completed_implies_done [] []
    [.submitCmd "u" "i" "http://a Bob" "t1", .pickPos 0 "i" "u" "Eng" "m1"]
    0 (by decide)⟩

/-- C9, counterexample: a load failure of the open call itself is not
caught by either loader, so the process aborts instead of continuing
with an empty registry; only a YAML parse error degrades gracefully. -/
theorem c9_counterexample :
    loadKnownCandidates .openFail = .error .osError ∧
    loadOpenPositions .openFail = .error .osError :=
  ⟨rfl, rfl⟩

/-- C9, amended: for a YAML parse error in either configuration source
the loader logs a warning and continues with an empty list or mapping;
an unreadable source, whose open call fails, propagates and aborts
startup. -/
theorem c9_yaml_error_degrades :
    loadKnownCandidates .yamlError = .ok ([], [.logWarn]) ∧
    loadOpenPositions .yamlError = .ok ([], [.logWarn]) :=
  ⟨rfl, rfl⟩

/-- C10: a cancel interaction whose token is absent from the token map
raises from the None dereference; a cancel whose submission has its
canonical name absent from the submitted set, as after a second cancel
of the same token, raises from the set removal; a position-pick with an
unknown token instead reports an internal error to the user and returns
with the store unchanged, provided the quota guard did not fire first. -/
theorem c10_cancel_raises_pick_reports :
    (∀ (s : StoreState) (token : Nat) (ui : String),
      lookupA s.submissions_by_token token = none →
      cancel_submission s token ui = .error .attributeError) ∧
    (∀ (s : StoreState) (token : Nat) (ui : String) (sub : Submission)
        (cand : String),
      lookupA s.submissions_by_token token = some sub →
      sub.candidate = some cand →
      canonicalize_name cand ∉ s.submitted_candidates →
      cancel_submission s token ui = .error .keyError) ∧
    (∀ (s : StoreState) (token : Nat) (ui un pos mts : String),
      ¬ CANDIDATE_LIMIT ≤ (completedGet s.done_submissions_by_user
        (some un) (some pos)).length →
      lookupA s.submissions_by_token token = none →
      pick_position s token ui un pos mts =
        (s, [.logError, .postMessage ui .internalError])) :=
  ⟨fun s token ui h => cancel_eq_missing s token ui h,
   fun s token ui sub cand hm hc hmem =>
     cancel_eq_keyError s token ui sub cand hm hc hmem,
   fun s token ui un pos mts hq hm =>
     pick_eq_missing s token ui un pos mts hq hm⟩

/-- C10, witness: an unknown token makes cancel raise at the initial
store; a second cancel of token 0 raises from the set removal; and a
position-pick with an unknown token reports the internal error. -/
theorem c10_witness :
    cancel_submission (initState [] []) 5 "i" = .error .attributeError ∧
    cancel_submission c10AfterCancel 0 "i" = .error .keyError ∧
    pick_position (initState [] []) 0 "i" "u" "P" "m" =
      (initState [] [], [.logError, .postMessage "i" .internalError]) :=
  ⟨c10_cancel_raises_pick_reports.1 (initState [] []) 5 "i" (by decide),
   c10_cancel_raises_pick_reports.2.1 c10AfterCancel 0 "i" c10Sub "Bob"
     (by decide) (by decide) (by decide),
   c10_cancel_raises_pick_reports.2.2 (initState [] []) 0 "i" "u" "P" "m"
     (by decide) (by decide)⟩

/-- C4: a successful cancel removes the canonical name of the cancelled
Submission from the submitted set and changes nothing else: the token
map and the active-token map are untouched, so the Submission stays
reachable under its token with its done flag still false, the cancelling
user still points at it, and a subsequent nomination whose candidate
name canonicalizes to the same string is accepted, provided that
nomination passes the length, non-empty-name and known-candidate
guards. -/
theorem c4_cancel_frees_name (s : StoreState) (token : Nat)
    (ui un2 ui2 t2 ts2 : String) (sub : Submission) (cand : String)
    (hm : lookupA s.submissions_by_token token = some sub)
    (hc : sub.candidate = some cand)
    (hmem : canonicalize_name cand ∈ s.submitted_candidates)
    (hcur : lookupA s.current_token_by_user_id ui = some token)
    (hdone : sub.done = false)
    (hlen2 : ¬ t2.length > MAX_COMMAND_LENGTH)
    (hname2 : (parseCommand t2).2 ≠ "")
    (hcanon : canonicalize_name (parseCommand t2).2 = canonicalize_name cand)
    (hknown : canonicalize_name cand ∉ s.known_candidates.map Prod.snd) :
    ∃ s' effs, cancel_submission s token ui = .ok (s', effs) ∧
      s'.submissions_by_token = s.submissions_by_token ∧
      s'.current_token_by_user_id = s.current_token_by_user_id ∧
      lookupA s'.submissions_by_token token = some sub ∧
      sub.done = false ∧
      lookupA s'.current_token_by_user_id ui = some token ∧
      canonicalize_name (parseCommand t2).2 ∉ s'.submitted_candidates ∧
      Effect.postMessage ui2 Msg.picker ∈
        (partybot_submit s' un2 ui2 t2 ts2).2 := by
  refine ⟨_, _, cancel_eq_ok s token ui sub cand hm hc hmem, rfl, rfl, hm,
    hdone, hcur, ?_, ?_⟩
  · rw [hcanon]
    exact not_mem_setRemove_self _ _
  · have hknown2 : canonicalize_name (parseCommand t2).2 ∉
        ({ s with submitted_candidates :=
            setRemove (canonicalize_name cand) s.submitted_candidates }
          : StoreState).known_candidates.map Prod.snd := by
      rw [hcanon]
      exact hknown
    have hsub2 : canonicalize_name (parseCommand t2).2 ∉
        ({ s with submitted_candidates :=
            setRemove (canonicalize_name cand) s.submitted_candidates }
          : StoreState).submitted_candidates := by
      rw [hcanon]
      exact not_mem_setRemove_self _ _
    rw [submit_eq_accept _ un2 ui2 t2 ts2 hlen2 hname2 hknown2 hsub2]
    simp

/-- C4, witness: cancel the pending nomination of Bob and renominate. -/
theorem c4_witness :
    ∃ s' effs, cancel_submission c4AfterSubmit 0 "i" = .ok (s', effs) ∧
      s'.submissions_by_token = c4AfterSubmit.submissions_by_token ∧
      s'.current_token_by_user_id = c4AfterSubmit.current_token_by_user_id ∧
      lookupA s'.submissions_by_token 0 = some c4Sub ∧
      c4Sub.done = false ∧
      lookupA s'.current_token_by_user_id "i" = some 0 ∧
      canonicalize_name (parseCommand "http://b Bob").2 ∉
        s'.submitted_candidates ∧
      Effect.postMessage "i" Msg.picker ∈
        (partybot_submit s' "u" "i" "http://b Bob" "t2").2 :=
  c4_cancel_frees_name c4AfterSubmit 0 "i" "u" "i" "http://b Bob" "t2" c4Sub
    "Bob" (by decide) (by decide) (by decide) (by decide) rfl (by decide)
    (by decide) (by decide) (by decide)

/-- C5: every user-input rejection leaves the store exactly as it was
and reports an explanatory message: an oversized command, an empty
candidate name, a known candidate, a duplicate candidate, and an
exceeded quota each return the unchanged store paired with the
explanatory message, the empty-name, known and duplicate rejections
preceded only by the non-blocking malformed-URL warning effects. -/
theorem c5_rejections_frame :
    (∀ (s : StoreState) (un ui t ts : String),
      t.length > MAX_COMMAND_LENGTH →
      partybot_submit s un ui t ts = (s, [.respond .maxLength])) ∧
    (∀ (s : StoreState) (un ui t ts : String),
      ¬ t.length > MAX_COMMAND_LENGTH → (parseCommand t).2 = "" →
      partybot_submit s un ui t ts =
        (s, urlWarnEffects (parseCommand t).1 ++ [.respond .emptyName])) ∧
    (∀ (s : StoreState) (un ui t ts : String),
      ¬ t.length > MAX_COMMAND_LENGTH → (parseCommand t).2 ≠ "" →
      canonicalize_name (parseCommand t).2 ∈
        s.known_candidates.map Prod.snd →
      partybot_submit s un ui t ts =
        (s, urlWarnEffects (parseCommand t).1 ++ [.respond .knownPool])) ∧
    (∀ (s : StoreState) (un ui t ts : String),
      ¬ t.length > MAX_COMMAND_LENGTH → (parseCommand t).2 ≠ "" →
      canonicalize_name (parseCommand t).2 ∉
        s.known_candidates.map Prod.snd →
      canonicalize_name (parseCommand t).2 ∈ s.submitted_candidates →
      partybot_submit s un ui t ts =
        (s, urlWarnEffects (parseCommand t).1 ++ [.respond .duplicate])) ∧
    (∀ (s : StoreState) (token : Nat) (ui un pos mts : String),
      CANDIDATE_LIMIT ≤ (completedGet s.done_submissions_by_user
        (some un) (some pos)).length →
      pick_position s token ui un pos mts =
        (s, [.postMessage ui .quota])) :=
  ⟨fun s un ui t ts h => submit_eq_maxLength s un ui t ts h,
   fun s un ui t ts h1 h2 => submit_eq_emptyName s un ui t ts h1 h2,
   fun s un ui t ts h1 h2 h3 => submit_eq_knownPool s un ui t ts h1 h2 h3,
   fun s un ui t ts h1 h2 h3 h4 =>
     submit_eq_duplicate s un ui t ts h1 h2 h3 h4,
   fun s token ui un pos mts h => pick_eq_quota s token ui un pos mts h⟩

set_option maxRecDepth 4000 in
/-- C5, witness exercising all five rejection paths. -/
theorem c5_witness :
    partybot_submit (initState [] []) "u" "i" c5LongText "t" =
      (initState [] [], [.respond .maxLength]) ∧
    partybot_submit (initState [] []) "u" "i" "http://a" "t" =
      (initState [] [],
       urlWarnEffects (parseCommand "http://a").1 ++ [.respond .emptyName]) ∧
    partybot_submit (initState [("Bob", canonicalize_name "Bob")] [])
        "u" "i" "http://a Bob" "t" =
      (initState [("Bob", canonicalize_name "Bob")] [],
       urlWarnEffects (parseCommand "http://a Bob").1 ++
         [.respond .knownPool]) ∧
    partybot_submit c5AfterSubmit "u" "i" "http://a Bob" "t" =
      (c5AfterSubmit,
       urlWarnEffects (parseCommand "http://a Bob").1 ++
         [.respond .duplicate]) ∧
    pick_position c5QuotaState 0 "i" "v" "Q" "m" =
      (c5QuotaState, [.postMessage "i" .quota]) :=
  ⟨c5_rejections_frame.1 (initState [] []) "u" "i" c5LongText "t" (by decide),
   c5_rejections_frame.2.1 (initState [] []) "u" "i" "http://a" "t"
     (by decide) (by decide),
   c5_rejections_frame.2.2.1 (initState [("Bob", canonicalize_name "Bob")] [])
     "u" "i" "http://a Bob" "t" (by decide) (by decide) (by decide),
   c5_rejections_frame.2.2.2.1 c5AfterSubmit "u" "i" "http://a Bob" "t"
     (by decide) (by decide) (by decide) (by decide),
   c5_rejections_frame.2.2.2.2 c5QuotaState 0 "i" "v" "Q" "m" (by decide)⟩

/-- C7: a generic message is ignored with no store change and no reply
when the sender has no active token or when the active Submission is
done; otherwise the text is stored as extraInfo together with the
attachment reference, the user is acknowledged, and completion runs
exactly when a position is already assigned, so the Submission stays
incomplete after free text alone, and a later position-pick completes it
with both extraInfo and position set and rewrites the file. -/
theorem c7_message_behavior :
    (∀ (s : StoreState) (uid text : String) (file : Option String),
      lookupA s.current_token_by_user_id uid = none →
      extra_info_message s (some uid) text file = (s, [.logInfo])) ∧
    (∀ (s : StoreState) (uid text : String) (file : Option String)
        (token : Nat) (sub : Submission),
      lookupA s.current_token_by_user_id uid = some token →
      lookupA s.submissions_by_token token = some sub → sub.done = true →
      extra_info_message s (some uid) text file = (s, [])) ∧
    (∀ (s : StoreState) (uid text : String) (file : Option String)
        (token : Nat) (sub : Submission),
      lookupA s.current_token_by_user_id uid = some token →
      lookupA s.submissions_by_token token = some sub → sub.done = false →
      sub.position = none →
      extra_info_message s (some uid) text file =
        ({ s with submissions_by_token :=
             insertA s.submissions_by_token token (updatedSubmission sub text file) },
         [.postMessage uid .infoSaved]) ∧
      (updatedSubmission sub text file).extra_info = some text ∧
      (updatedSubmission sub text file).cv_filename =
        updatedCv file sub.cv_filename ∧
      (updatedSubmission sub text file).done = false ∧
      (updatedSubmission sub text file).position = none) ∧
    (∀ (s : StoreState) (uid text : String) (file : Option String)
        (token : Nat) (sub : Submission) (p : String),
      lookupA s.current_token_by_user_id uid = some token →
      lookupA s.submissions_by_token token = some sub → sub.done = false →
      sub.position = some p → p ≠ "" →
      lookupA (extra_info_message s (some uid) text
          file).1.submissions_by_token token =
        some { updatedSubmission sub text file with done := true } ∧
      (extra_info_message s (some uid) text file).2.any Effect.isSave =
        true) ∧
    (∀ (s : StoreState) (token : Nat) (ui un pos mts : String)
        (sub : Submission),
      ¬ CANDIDATE_LIMIT ≤ (completedGet s.done_submissions_by_user
        (some un) (some pos)).length →
      lookupA s.submissions_by_token token = some sub →
      lookupA (pick_position s token ui un pos
          mts).1.submissions_by_token token =
        some { sub with position := some pos, ts := some mts, done := true } ∧
      (pick_position s token ui un pos mts).2.any Effect.isSave = true) := by
  refine ⟨?_, ?_, ?_, ?_, ?_⟩
  · intro s uid text file h1
    exact message_eq_noToken s uid text file h1
  · intro s uid text file token sub h1 h2 hd
    exact message_eq_done s uid text file token sub h1 h2 hd
  · intro s uid text file token sub h1 h2 hd hp
    refine ⟨message_eq_update s uid text file token sub h1 h2 hd hp, rfl,
      rfl, ?_, ?_⟩
    · exact hd
    · exact hp
  · intro s uid text file token sub p h1 h2 hd hp hpe
    rw [message_eq_finish s uid text file token sub p h1 h2 hd hp hpe]
    constructor
    · simp only [finish_submission]
      exact lookupA_insertA_self _ _ _
    · simp [finish_submission, Effect.isSave]
  · intro s token ui un pos mts sub hq hm
    rw [pick_eq_found s token ui un pos mts sub hq hm]
    constructor
    · simp only [finish_submission]
      exact lookupA_insertA_self _ _ _
    · simp [finish_submission, Effect.isSave]

/-- C7, witness: free text after nominating Bob stores the extraInfo and
leaves done false with no position. -/
theorem c7_witness :
    extra_info_message c7AfterSubmit (some "i") "notes" none =
      ({ c7AfterSubmit with submissions_by_token :=
                              insertA c7AfterSubmit.submissions_by_token 0 (updatedSubmission c7Sub "notes" none) },
       [.postMessage "i" .infoSaved]) ∧
    (updatedSubmission c7Sub "notes" none).extra_info = some "notes" ∧
    (updatedSubmission c7Sub "notes" none).cv_filename =
      updatedCv none c7Sub.cv_filename ∧
    (updatedSubmission c7Sub "notes" none).done = false ∧
    (updatedSubmission c7Sub "notes" none).position = none :=
  c7_message_behavior.2.2.1 c7AfterSubmit "i" "notes" none 0 c7Sub
    (by decide) (by decide) rfl rfl

/-- C8: the report handler returns the store unchanged with the
projection of the completed-submissions map as its only outbound
message; the projection of a submitter absent from the map is the empty
grouped structure, every rendered group comes from the completed-map
entry of that submitter projected down to candidate names, and the
projection reads only the completed map and the token map. -/
theorem c8_report_reads_only :
    (∀ (s : StoreState) (un ui : String),
      partybot_report s un ui =
        (s, [.postMessage ui (.report (reportFor s un))])) ∧
    (∀ (s : StoreState) (un : String),
      lookupA s.done_submissions_by_user (some un) = none →
      reportFor s un = []) ∧
    (∀ (s : StoreState) (un : String) (p : Option String)
        (cs : List (Option String)),
      (p, cs) ∈ reportFor s un →
      ∃ byName,
        (p, byName) ∈ (lookupA s.done_submissions_by_user (some un)).getD [] ∧
        cs = byName.map (fun cm =>
          (lookupA s.submissions_by_token cm.2).bind Submission.candidate)) ∧
    (∀ (s1 s2 : StoreState) (un : String),
      s1.done_submissions_by_user = s2.done_submissions_by_user →
      s1.submissions_by_token = s2.submissions_by_token →
      reportFor s1 un = reportFor s2 un) := by
  refine ⟨fun s un ui => rfl, ?_, ?_, ?_⟩
  · intro s un h
    simp [reportFor, h]
  · intro s un p cs hmem
    unfold reportFor at hmem
    rw [List.mem_map] at hmem
    obtain ⟨pm, hpm, heq⟩ := hmem
    obtain ⟨p0, byName⟩ := pm
    injection heq with h1 h2
    subst h1
    subst h2
    exact ⟨byName, hpm, rfl⟩
  · intro s1 s2 un h1 h2
    unfold reportFor
    rw [h1, h2]

/-- C8, witness: the projection for a submitter with no completed
submissions is empty. -/
theorem c8_witness :
    lookupA (initState [] []).done_submissions_by_user (some "u") = none ∧
    reportFor (initState [] []) "u" = [] :=
  ⟨by decide, c8_report_reads_only.2.1 (initState [] []) "u" (by decide)⟩

end PartyBot
